import Mathlib

/-!
# Verification of the transcription-worker pipeline

Shallow embedding of the consolidated Cloudflare worker (`src/unnamed/part_000`):
the strategy constants, text normalization, the merge engine (`mergeResults`),
the chunk fetcher (`processChunk`), the size probe, strategy selection and the
response metadata.  Timestamps (JS `number`s holding seconds) are modelled as
rationals; byte buffers are modelled as lists of characters (the worker only
ever inspects the decoded leading bytes of a buffer and its length).
-/

namespace TranscriptionWorker

/-! ## Strategy constants (part_000 lines 6–11) -/

def DEFAULT_CHUNK_SIZE : ℤ := 8 * 1024 * 1024
def SMALL_FILE_LIMIT : ℤ := 20 * 1024 * 1024
def MEDIUM_FILE_LIMIT : ℤ := 50 * 1024 * 1024
def SAFE_CHUNK_SIZE : ℤ := 2 * 1024 * 1024
def SAFE_PARALLEL : ℤ := 3
def DEFAULT_PARALLEL : ℤ := 10

/-! ## Data model (part_000 lines 47–48) -/

/-- `type Word = { word: string; start: number; end: number }`.
`end` is a Lean keyword, hence the guillemets. -/
structure Word where
  word : String
  start : ℚ
  «end» : ℚ
deriving DecidableEq, Repr

/-- `type Segment = { start: number; end: number; text: string; words?: Word[] }`. -/
structure Segment where
  start : ℚ
  «end» : ℚ
  text : String
  words : Option (List Word)
deriving DecidableEq, Repr

/-! ## Text normalization (part_000 lines 50–52)

`normalizeText(t) = t.toLowerCase().replace(/\s+/g, " ").replace(/[.,!?]/g, "").trim()`.
We implement the three regex passes character-list by character-list. -/

/-- One pass of `.replace(/\s+/g, " ")`: every maximal whitespace run becomes
a single space. -/
def collapseWs : List Char → List Char
  | [] => []
  | [c] => if c.isWhitespace then [' '] else [c]
  | c :: c' :: cs =>
    if c.isWhitespace then
      if c'.isWhitespace then collapseWs (c' :: cs)
      else ' ' :: collapseWs (c' :: cs)
    else c :: collapseWs (c' :: cs)

/-- The character class `[.,!?]`. -/
def isStrippedPunct (c : Char) : Bool :=
  c = '.' || c = ',' || c = '!' || c = '?'

/-- `String.prototype.trim()`: strip leading and trailing whitespace. -/
def trimChars (l : List Char) : List Char :=
  ((l.dropWhile Char.isWhitespace).reverse.dropWhile Char.isWhitespace).reverse

def normalizeText (t : String) : String :=
  ⟨trimChars ((collapseWs (t.toList.map Char.toLower)).filter
      (fun c => !isStrippedPunct c))⟩

/-! ## Merge engine (part_000 lines 54–107) -/

/-- The structured transcription result for one chunk: `result.segments || []`,
`result.words || []` and `result.transcription_info?.duration ?? 0`
(`none` models an absent duration). -/
structure AiResult where
  segments : List Segment
  words : List Word
  duration : Option ℚ
deriving DecidableEq, Repr

/-- One element of the `chunks` array handed to `mergeResults`:
`{ offset, result, chunkSize }` where `chunkSize` is the fetched byte length. -/
structure ChunkResult where
  offset : ℕ
  result : AiResult
  chunkSize : ℕ
deriving DecidableEq, Repr

/-- `(offset / chunkSize) * chunkDuration` — the left operand of the `||`
on line 63.  In ℚ a division by zero yields 0, which coincides with the JS
behaviour of the `||` (a NaN product is falsy, as is a zero product). -/
def chunkProduct (c : ChunkResult) : ℚ :=
  ((c.offset : ℚ) / (c.chunkSize : ℚ)) * (c.result.duration.getD 0)

/-- `const timeOffset = (offset / chunkSize) * chunkDuration || (lastSegment ? lastSegment.end : 0)`
where `lastSegment` is the last element of the global segment list accumulated
so far (line 62–63). -/
def timeOffsetOf (c : ChunkResult) (globalSegments : List Segment) : ℚ :=
  if chunkProduct c ≠ 0 then chunkProduct c
  else match globalSegments.getLast? with
       | some l => l.«end»
       | none => 0

def shiftWord (t : ℚ) (w : Word) : Word :=
  ⟨w.word, w.start + t, w.«end» + t⟩

def shiftSegment (t : ℚ) (s : Segment) : Segment :=
  ⟨s.start + t, s.«end» + t, s.text, s.words.map (fun ws => ws.map (shiftWord t))⟩

/-- The body of the `for (const { offset, result, chunkSize } of chunks)` loop
(lines 58–85): push the shifted segments and words of one chunk. -/
def accumulate (acc : List Segment × List Word) (c : ChunkResult) :
    List Segment × List Word :=
  let t := timeOffsetOf c acc.1
  (acc.1 ++ c.result.segments.map (shiftSegment t),
   acc.2 ++ c.result.words.map (shiftWord t))

def globalLists (chunks : List ChunkResult) : List Segment × List Word :=
  chunks.foldl accumulate ([], [])

/-- The segments one chunk contributes when its product is nonzero (the
accumulator is then irrelevant to its time offset). -/
def segContrib (c : ChunkResult) : List Segment :=
  c.result.segments.map (shiftSegment (chunkProduct c))

/-- The words one chunk contributes when its product is nonzero. -/
def wordContrib (c : ChunkResult) : List Word :=
  c.result.words.map (shiftWord (chunkProduct c))

/-- `globalSegments.sort((a, b) => a.start - b.start)` sorts by `start`;
`Array.prototype.sort` is stable, and `List.insertionSort` with a `≤` on the
key is exactly the stable sort by that key. -/
def segLE (a b : Segment) : Prop := a.start ≤ b.start

def wordLE (a b : Word) : Prop := a.start ≤ b.start

instance : DecidableRel segLE := fun a b =>
  (inferInstance : Decidable (a.start ≤ b.start))

instance : DecidableRel wordLE := fun a b =>
  (inferInstance : Decidable (a.start ≤ b.start))

instance : IsTotal Segment segLE := ⟨fun a b => le_total a.start b.start⟩
instance : IsTrans Segment segLE := ⟨fun _ _ _ h h' => le_trans h h'⟩
instance : IsTotal Word wordLE := ⟨fun a b => le_total a.start b.start⟩
instance : IsTrans Word wordLE := ⟨fun _ _ _ h h' => le_trans h h'⟩

/-- `Math.max(0, Math.min(prev.end, s.end) - Math.max(prev.start, s.start))` (line 94). -/
def overlapOf (prev s : Segment) : ℚ :=
  max 0 (min prev.«end» s.«end» - max prev.start s.start)

/-- `Math.max(prev.end - prev.start, s.end - s.start, 1e-3)` (line 95). -/
def spanOf (prev s : Segment) : ℚ :=
  max (prev.«end» - prev.start) (max (s.«end» - s.start) (1 / 1000))

/-- The duplicate predicate of line 96–97:
`overlap / span > 0.5 && normalizeText(prev.text) === normalizeText(s.text)`. -/
def isDuplicate (prev s : Segment) : Bool :=
  decide (overlapOf prev s / spanOf prev s > 1 / 2) &&
    (normalizeText prev.text == normalizeText s.text)

/-- One iteration of the dedup loop (lines 91–103): `prev` is the last kept
segment; on a duplicate the current segment replaces it
(`dedupSegments[dedupSegments.length - 1] = s`), otherwise it is pushed. -/
def dedupStep (kept : List Segment) (s : Segment) : List Segment :=
  match kept.getLast? with
  | some prev =>
    if isDuplicate prev s then kept.dropLast ++ [s] else kept ++ [s]
  | none => kept ++ [s]

def dedup (l : List Segment) : List Segment := l.foldl dedupStep []

/-- `dedupSegments.map(s => s.text.trim()).join(" ").replace(/\s+/g, " ").trim()` (line 105). -/
def fullTextOf (segs : List Segment) : String :=
  ⟨trimChars (collapseWs
    (String.toList (String.intercalate " "
      (segs.map (fun s => ⟨trimChars s.text.toList⟩)))))⟩

structure MergedTranscript where
  text : String
  segments : List Segment
  words : List Word
deriving DecidableEq, Repr

/-- `mergeResults` (part_000 lines 54–107): accumulate shifted segments and
words, sort both by start, dedup the segments, build the full text. -/
def mergeResults (chunks : List ChunkResult) : MergedTranscript :=
  ⟨fullTextOf (dedup (List.insertionSort segLE (globalLists chunks).1)),
   dedup (List.insertionSort segLE (globalLists chunks).1),
   List.insertionSort wordLE (globalLists chunks).2⟩

/-- A segment without word-level detail, for concrete test inputs. -/
def exSeg (a b : ℚ) (t : String) : Segment := ⟨a, b, t, none⟩

/-! ## Chunk fetcher (part_000 lines 109–146)

A fetched byte buffer is modelled as a `List Char` (the worker only inspects
its length and its decoded leading 64 bytes); an origin response is a status
code plus that buffer.  The external transcription engine (`env.AI.run`) is an
opaque parameter `ai`. -/

structure OriginResponse where
  status : ℕ
  body : List Char
deriving DecidableEq, Repr

/-- Does `pat` occur at the head of `l`? -/
def hasPre : List Char → List Char → Bool
  | [], _ => true
  | _ :: _, [] => false
  | p :: ps, c :: cs => p = c && hasPre ps cs

/-- Does `pat` occur anywhere in `l`?  (A literal-alternation JS regex `.test`
is exactly substring search.) -/
def hasSub (pat : List Char) : List Char → Bool
  | [] => hasPre pat []
  | c :: cs => hasPre pat (c :: cs) || hasSub pat cs

/-- `/<!DOCTYPE|<html|{"error/.test(decodedHead)` (line 135). -/
def markupTest (head : List Char) : Bool :=
  hasSub "<!DOCTYPE".toList head || hasSub "<html".toList head ||
    hasSub "\x7b\"error".toList head

/-- `resp.status === 403 || resp.status === 401` (line 118). -/
def authFailure (status : ℕ) : Bool := status = 403 || status = 401

/-- The response whose buffer `processChunk` goes on to use: the retry response
when the first answer was an authorization failure, the first response
otherwise. -/
def effectiveResponse (resp1 resp2 : OriginResponse) : OriginResponse :=
  if authFailure resp1.status then resp2 else resp1

/-- A successful chunk: `{ offset, result: aiResp, chunkSize: buffer.byteLength }`. -/
structure ChunkOutput (α : Type) where
  offset : ℕ
  result : α
  chunkSize : ℕ
deriving DecidableEq, Repr

/-- Bookkeeping for one `processChunk` call: how many origin fetches and how
many URL re-resolutions happened, and the outcome (`Except` models `throw`). -/
structure FetchTrace (α : Type) where
  fetches : ℕ
  resolves : ℕ
  outcome : Except String (ChunkOutput α)
deriving Repr

/-- `processChunk` (lines 109–146).  `resp1` is what the origin returns for the
first range request, `resp2` what it returns for the (at most one) retried
request after re-resolving the URL. -/
def processChunk {α : Type} (ai : List Char → α) (offset : ℕ)
    (resp1 resp2 : OriginResponse) : FetchTrace α :=
  let retried := authFailure resp1.status
  let resp := effectiveResponse resp1 resp2
  { fetches := if retried then 2 else 1
    resolves := if retried then 1 else 0
    outcome :=
      if resp.status ≠ 206 ∧ resp.status ≠ 200 then
        Except.error ("Origin fetch failed: " ++ toString resp.status)
      else if resp.body.length = 0 ∨ markupTest (resp.body.take 64) then
        Except.error ("Harvester returned non-audio data at offset=" ++ toString offset)
      else Except.ok ⟨offset, ai resp.body, resp.body.length⟩ }

/-! ## Whole-file fetch of the single-shot and unknown-size branches
(part_000 lines 181–199 and 200–220; both branches run the same checks) -/

structure FullResponse where
  contentType : String
  body : List Char
deriving DecidableEq, Repr

/-- `/audio|video/.test(contentType)` (lines 192 and 212). -/
def audioVideoTest (ct : String) : Bool :=
  hasSub "audio".toList ct.toList || hasSub "video".toList ct.toList

/-- The whole-file fetch path: validate only the declared content type, then
hand the buffer to the engine (lines 182–198 resp. 202–218). -/
def singleShotFetch {α : Type} (ai : List Char → α) (resp : FullResponse) :
    Except String (ChunkOutput α) :=
  if !audioVideoTest resp.contentType then
    Except.error ("Invalid media response (content-type=" ++ resp.contentType ++ ")")
  else Except.ok ⟨0, ai resp.body, resp.body.length⟩

/-! ## Size probe (part_000 lines 161–176) -/

/-- `String.prototype.split("/")` on a character list. -/
def splitOnSlash : List Char → List (List Char)
  | [] => [[]]
  | c :: cs =>
    if c = '/' then [] :: splitOnSlash cs
    else match splitOnSlash cs with
         | h :: t => (c :: h) :: t
         | [] => [[c]]

/-- `parseInt(s, 10)`: skip leading whitespace, optional sign, then a maximal
digit run; `none` models `NaN` (no digits). -/
def parseIntJS (l : List Char) : Option ℤ :=
  let l' := l.dropWhile Char.isWhitespace
  let signAndRest : ℤ × List Char :=
    match l' with
    | '-' :: r => (-1, r)
    | '+' :: r => (1, r)
    | r => (1, r)
  let digits := signAndRest.2.takeWhile Char.isDigit
  if digits.isEmpty then none
  else some (signAndRest.1 *
    (digits.foldl (fun acc c => acc * 10 + (c.toNat - '0'.toNat)) 0 : ℕ))

/-- The probe response: was it `ok`, and the `Content-Range` header if any. -/
structure ProbeResponse where
  ok : Bool
  contentRange : Option String
deriving DecidableEq, Repr

/-- Lines 162–176: `fileSize` starts at 0; only an ok probe with a two-part
`Content-Range` assigns `parseInt(parts[1], 10)`.  The result is a JS number:
`none` models `NaN` (an unparseable size part). -/
def probeFileSize (p : ProbeResponse) : Option ℤ :=
  if p.ok then
    match p.contentRange with
    | some cr =>
      let parts := splitOnSlash cr.toList
      if parts.length = 2 then parseIntJS (parts.getD 1 []) else some 0
    | none => some 0
  else some 0

/-! ## Strategy selection (part_000 lines 181–254)

`fileSize` and the two `parseInt` overrides are JS numbers, modelled as
`Option ℤ` with `none` for `NaN`; every comparison against `NaN` is false. -/

/-- `b < a` on a JS number `a` (false for `NaN`). -/
def jgt (a : Option ℤ) (b : ℤ) : Bool :=
  match a with
  | some v => decide (b < v)
  | none => false

/-- `a ≤ b` on a JS number `a` (false for `NaN`). -/
def jle (a : Option ℤ) (b : ℤ) : Bool :=
  match a with
  | some v => decide (v ≤ b)
  | none => false

/-- `!isNaN(o) && o > 0 ? o : d` — the override guard on lines 224, 226, 240, 242. -/
def applyOverride (o : Option ℤ) (d : ℤ) : ℤ :=
  match o with
  | some v => if 0 < v then v else d
  | none => d

inductive Strategy where
  | singleShot
  | unknownFallback
  | mediumParallel (chunkSize maxParallel : ℤ)
  | safeParallel (chunkSize maxParallel : ℤ)
deriving DecidableEq, Repr

/-- The branch structure of lines 181–254, including the effective chunk size
and parallelism each chunked branch computes. -/
def selectStrategy (fileSize chunkO parO : Option ℤ) : Strategy :=
  if jgt fileSize 0 && jle fileSize SMALL_FILE_LIMIT then .singleShot
  else if fileSize = some 0 then .unknownFallback
  else if jgt fileSize 0 && jle fileSize MEDIUM_FILE_LIMIT then
    .mediumParallel
      (applyOverride chunkO
        (if jgt fileSize (40 * 1024 * 1024) then 4 * 1024 * 1024 else DEFAULT_CHUNK_SIZE))
      (applyOverride parO DEFAULT_PARALLEL)
  else
    .safeParallel (applyOverride chunkO SAFE_CHUNK_SIZE) (applyOverride parO SAFE_PARALLEL)

/-! ## Response metadata (part_000 lines 261–269) -/

/-- JS `o || d` on a parsed override: `NaN` and `0` are falsy. -/
def jsOr (o : Option ℤ) (d : ℤ) : ℤ :=
  match o with
  | some v => if v ≠ 0 then v else d
  | none => d

/-- `meta.chunkSize = chunkOverride || (fileSize > MEDIUM_FILE_LIMIT ? SAFE_CHUNK_SIZE : DEFAULT_CHUNK_SIZE)` (line 268). -/
def metaChunkSize (chunkO fileSize : Option ℤ) : ℤ :=
  jsOr chunkO (if jgt fileSize MEDIUM_FILE_LIMIT then SAFE_CHUNK_SIZE else DEFAULT_CHUNK_SIZE)

/-- `meta.parallelism = parallelOverride || (fileSize > MEDIUM_FILE_LIMIT ? SAFE_PARALLEL : DEFAULT_PARALLEL)` (line 267). -/
def metaParallelism (parO fileSize : Option ℤ) : ℤ :=
  jsOr parO (if jgt fileSize MEDIUM_FILE_LIMIT then SAFE_PARALLEL else DEFAULT_PARALLEL)

/-! ## Chunk scheduler (part_000 lines 228–237 / 244–253)

The nested loop
`while (offset < fileSize) { for (i = 0; i < MAX_PARALLEL && offset < fileSize; i++) { push (offset, min(offset+chunkSize-1, fileSize-1)); offset += chunkSize } }`
is modelled by `batchTasks` (one inner `for`, recursing on the remaining
iteration count) and `scheduleLoop` (the outer `while`).  `chunkLoop` is the
flattened task stream; `scheduleLoop_eq_chunkLoop` proves batching does not
change the generated tasks.  The source loops forever when the chunk size or
parallelism is zero, which cannot happen (both defaults and accepted overrides
are positive); the embedding returns `[]` in that dead case. -/

def chunkLoop (cs total offset : ℕ) : List (ℕ × ℕ) :=
  if _h : 0 < cs ∧ offset < total then
    (offset, min (offset + cs - 1) (total - 1)) :: chunkLoop cs total (offset + cs)
  else []
termination_by total - offset
decreasing_by omega

/-- The inner `for` loop: `j` is the number of remaining iterations
(`MAX_PARALLEL - i`); returns the tasks pushed and the final `offset`. -/
def batchTasks (cs total : ℕ) : ℕ → ℕ → List (ℕ × ℕ) × ℕ
  | 0, offset => ([], offset)
  | j + 1, offset =>
    if offset < total then
      let rest := batchTasks cs total j (offset + cs)
      ((offset, min (offset + cs - 1) (total - 1)) :: rest.1, rest.2)
    else ([], offset)

/-- The outer `while` loop over whole batches. -/
def scheduleLoop (p cs total offset : ℕ) : List (ℕ × ℕ) :=
  if _h : 0 < p ∧ 0 < cs ∧ offset < total then
    (batchTasks cs total p offset).1 ++
      scheduleLoop p cs total (batchTasks cs total p offset).2
  else []
termination_by total - offset
decreasing_by
  have key : ∀ j o, o ≤ (batchTasks cs total j o).2 := by
    intro j
    induction j with
    | zero => intro o; simp [batchTasks]
    | succ j ih =>
      intro o
      by_cases h : o < total
      · have := ih (o + cs)
        simp only [batchTasks, if_pos h]
        omega
      · simp [batchTasks, if_neg h]
  have hgt : offset < (batchTasks cs total p offset).2 := by
    obtain ⟨hp, hcs, ho⟩ := _h
    cases p with
    | zero => omega
    | succ j =>
      have := key j (offset + cs)
      simp only [batchTasks, if_pos ho]
      omega
  omega

/-! ## Concrete chunk results used in counterexamples and witnesses -/

/-- One chunk whose sorted segment list triggers a replacement that leaves two
consecutive duplicates: segments `[0,10] "x"`, `[4,9] "x"`, `[4,10] "x"`. -/
def dupChunk : ChunkResult :=
  ⟨0, ⟨[exSeg 0 10 "x", exSeg 4 9 "x", exSeg 4 10 "x"], [], none⟩, 1⟩

/-- Offset 1, byte length 1, reported duration 10: product `(1/1)·10 = 10`. -/
def cexA : ChunkResult := ⟨1, ⟨[exSeg 0 2 "a"], [], some 10⟩, 1⟩

/-- Offset 0 with a positive reported duration 5: product `(0/1)·5 = 0`. -/
def cexB : ChunkResult := ⟨0, ⟨[exSeg 0 1 "b"], [], some 5⟩, 1⟩

/-- Offset 1, byte length 1, duration 10: product 10. -/
def ordA : ChunkResult := ⟨1, ⟨[exSeg 0 10 "a"], [], some 10⟩, 1⟩

/-- Offset 1, byte length 1, reported duration 0: product 0, takes the fallback. -/
def ordB : ChunkResult := ⟨1, ⟨[exSeg 0 5 "b"], [], some 0⟩, 1⟩

/-- Two chunks with nonzero products and distinct shifted starts. -/
def wChunkA : ChunkResult := ⟨1, ⟨[exSeg 0 1 "a"], [], some 10⟩, 1⟩

def wChunkB : ChunkResult := ⟨2, ⟨[exSeg 0 1 "b"], [], some 10⟩, 1⟩

/-! # Theorems for the frozen claims -/

/-- The Bool duplicate test as the spec's proposition. -/
theorem isDuplicate_iff (prev s : Segment) :
    isDuplicate prev s = true ↔
      (max 0 (min prev.«end» s.«end» - max prev.start s.start)) /
          (max (prev.«end» - prev.start) (max (s.«end» - s.start) (1 / 1000))) > 1 / 2 ∧
        normalizeText prev.text = normalizeText s.text := by
  simp [isDuplicate, overlapOf, spanOf]

/-- Claim C1: during deduplication, with `prev` the last kept segment, the
current segment `s` replaces `prev` (the later-processed duplicate is kept)
exactly when `overlap/span > 0.5` and the normalized texts agree, where
`overlap = max(0, min(prevEnd, curEnd) - max(prevStart, curStart))` and
`span = max(prevDuration, curDuration, 1e-3)`; otherwise `s` is appended, and
the walk over the sorted list processes one segment at a time. -/
theorem dedup_replace_iff (kept : List Segment) (prev s : Segment)
    (h : kept.getLast? = some prev) :
    (dedupStep kept s = kept.dropLast ++ [s] ↔
      (max 0 (min prev.«end» s.«end» - max prev.start s.start)) /
          (max (prev.«end» - prev.start) (max (s.«end» - s.start) (1 / 1000))) > 1 / 2 ∧
        normalizeText prev.text = normalizeText s.text) ∧
    (dedupStep kept s = kept ++ [s] ↔
      ¬((max 0 (min prev.«end» s.«end» - max prev.start s.start)) /
          (max (prev.«end» - prev.start) (max (s.«end» - s.start) (1 / 1000))) > 1 / 2 ∧
        normalizeText prev.text = normalizeText s.text)) ∧
    (∀ gs : List Segment, dedup (gs ++ [s]) = dedupStep (dedup gs) s) := by
  have hne : kept ≠ [] := by
    intro e
    rw [e] at h
    simp at h
  have hlen : kept.length ≠ 0 := fun e => hne (List.eq_nil_of_length_eq_zero e)
  have hstep : dedupStep kept s =
      if isDuplicate prev s then kept.dropLast ++ [s] else kept ++ [s] := by
    unfold dedupStep
    rw [h]
  have hdistinct : kept.dropLast ++ [s] ≠ kept ++ [s] := by
    intro heq
    have := congrArg List.length heq
    simp [List.length_dropLast] at this
    omega
  refine ⟨?_, ?_, ?_⟩
  · constructor
    · intro heq
      by_contra hnd
      have hd : ¬(isDuplicate prev s = true) := fun hd => hnd ((isDuplicate_iff prev s).mp hd)
      rw [hstep, if_neg hd] at heq
      exact hdistinct heq.symm
    · intro hf
      rw [hstep, if_pos ((isDuplicate_iff prev s).mpr hf)]
  · constructor
    · intro heq
      by_contra hnd
      rw [hstep, if_pos ((isDuplicate_iff prev s).mpr hnd)] at heq
      exact hdistinct heq
    · intro hf
      have hd : ¬(isDuplicate prev s = true) := fun hd => hf ((isDuplicate_iff prev s).mp hd)
      rw [hstep, if_neg hd]
  · intro gs
    unfold dedup
    rw [List.foldl_append]
    simp

unseal Rat.add Rat.mul Rat.inv Rat.sub in
/-- Claim C1 witness: for `prev = [0,10] "x"` and `s = [4,10] "x"` the overlap
ratio is `6/10 > 1/2` and the texts agree, so the replacement fires. -/
theorem dedup_replace_iff_witness :
    dedupStep [exSeg 0 10 "x"] (exSeg 4 10 "x") = [exSeg 4 10 "x"] := by
  have h := (dedup_replace_iff [exSeg 0 10 "x"] (exSeg 0 10 "x") (exSeg 4 10 "x") rfl).1
  have := h.mpr (by constructor
                    · decide
                    · rfl)
  simpa using this

/-- The dedup fold keeps the concatenation of the kept list and the remaining
input pairwise ordered: a replacement only shrinks the kept list (its
`dropLast` is a sublist), an append moves the head of the rest over. -/
theorem foldl_dedupStep_pairwise :
    ∀ (rest kept : List Segment), (kept ++ rest).Pairwise segLE →
      (List.foldl dedupStep kept rest).Pairwise segLE := by
  intro rest
  induction rest with
  | nil => intro kept h; simpa using h
  | cons s rest' ih =>
    intro kept h
    rw [List.foldl_cons]
    apply ih
    cases hk : kept.getLast? with
    | none =>
      have hkeq : kept = [] := List.getLast?_eq_none_iff.mp hk
      subst hkeq
      simpa [dedupStep] using h
    | some prev =>
      have hstep : dedupStep kept s =
          if isDuplicate prev s then kept.dropLast ++ [s] else kept ++ [s] := by
        unfold dedupStep
        rw [hk]
      rw [hstep]
      by_cases hd : isDuplicate prev s = true
      · rw [if_pos hd]
        have h1 : List.Sublist (kept.dropLast ++ (s :: rest')) (kept ++ (s :: rest')) :=
          (List.dropLast_sublist kept).append_right (s :: rest')
        have h2 : (kept ++ s :: rest').Pairwise segLE := by
          simpa [List.append_assoc] using h
        have h3 := List.Pairwise.sublist h1 h2
        simpa [List.append_assoc] using h3
      · rw [if_neg hd]
        simpa [List.append_assoc] using h

unseal Rat.add Rat.mul Rat.inv Rat.sub in
/-- Claim C2 counterexample: merging the single chunk `dupChunk` produces the
segment list `[[0,10] "x", [4,10] "x"]`, whose two consecutive entries satisfy
the duplicate predicate — the middle segment `[4,9] "x"` was replaced by
`[4,10] "x"`, which is a duplicate of the segment before it, so the output is
not pairwise non-duplicate. -/
theorem merge_consecutive_duplicate_cex :
    (mergeResults [dupChunk]).segments = [exSeg 0 10 "x", exSeg 4 10 "x"] ∧
    isDuplicate (exSeg 0 10 "x") (exSeg 4 10 "x") = true := by
  constructor
  · decide
  · decide

/-- Claim C2 (amended): the merged segment list is always sorted by start time
ascending, and a segment that is *appended* during deduplication never
satisfies the duplicate predicate against the previously kept segment; after
a *replacement*, however, consecutive kept segments can still be duplicates
(see the counterexample). -/
theorem merge_segments_sorted (chunks : List ChunkResult) :
    ((mergeResults chunks).segments).Pairwise segLE ∧
    (∀ (kept : List Segment) (s prev : Segment), kept.getLast? = some prev →
      dedupStep kept s = kept ++ [s] → isDuplicate prev s = false) := by
  constructor
  · show (dedup (List.insertionSort segLE (globalLists chunks).1)).Pairwise segLE
    unfold dedup
    apply foldl_dedupStep_pairwise
    simpa using List.sorted_insertionSort segLE (globalLists chunks).1
  · intro kept s prev h happ
    by_contra hd
    rw [Bool.not_eq_false] at hd
    have hstep : dedupStep kept s = kept.dropLast ++ [s] := by
      unfold dedupStep
      rw [h]
      simp [hd]
    have hne : kept ≠ [] := by
      intro e
      rw [e] at h
      simp at h
    have hlen : kept.length ≠ 0 := fun e => hne (List.eq_nil_of_length_eq_zero e)
    rw [happ] at hstep
    have := congrArg List.length hstep
    simp [List.length_dropLast] at this
    omega

unseal Rat.add Rat.mul Rat.inv Rat.sub in
/-- Claim C2 witness: a genuinely appended segment (`[20,30] "y"` after
`[0,10] "x"`) fails the duplicate predicate. -/
theorem merge_segments_sorted_witness :
    isDuplicate (exSeg 0 10 "x") (exSeg 20 30 "y") = false :=
  (merge_segments_sorted []).2 [exSeg 0 10 "x"] (exSeg 20 30 "y") (exSeg 0 10 "x")
    rfl (by decide)

/-- Claim C3 (amended): the time offset added to a chunk equals
`(byteOffset / chunkByteLength) * reportedChunkDuration` whenever that product
is nonzero — which requires the byte offset, the byte length *and* the reported
duration all to be nonzero; the fallback (end of the last globally-placed
segment, 0 if none) is used exactly when the product collapses to zero, which
happens when the duration is zero or unavailable but *also* when the byte
offset is zero, even with a positive reported duration. -/
theorem time_offset_product_or_fallback (c : ChunkResult) (gs : List Segment) :
    (c.offset ≠ 0 → c.chunkSize ≠ 0 → c.result.duration.getD 0 ≠ 0 →
      timeOffsetOf c gs = ((c.offset : ℚ) / (c.chunkSize : ℚ)) * c.result.duration.getD 0) ∧
    ((c.offset = 0 ∨ c.chunkSize = 0 ∨ c.result.duration.getD 0 = 0) →
      timeOffsetOf c gs =
        (match gs.getLast? with
         | some l => l.«end»
         | none => 0)) := by
  constructor
  · intro ho hc hd
    have hprod : chunkProduct c ≠ 0 := by
      unfold chunkProduct
      exact mul_ne_zero
        (div_ne_zero (Nat.cast_ne_zero.mpr ho) (Nat.cast_ne_zero.mpr hc)) hd
    unfold timeOffsetOf
    rw [if_pos hprod]
    rfl
  · intro h
    have hprod : chunkProduct c = 0 := by
      unfold chunkProduct
      rcases h with h | h | h
      · rw [h]; simp
      · rw [h]; simp
      · rw [h]; simp
    unfold timeOffsetOf
    rw [if_neg (by simpa using hprod)]

unseal Rat.add Rat.mul Rat.inv Rat.sub in
/-- Claim C3 counterexample: chunk `cexB` has byte offset 0, byte length 1 and
a *positive* reported duration 5, yet when it is processed after `cexA` the
merge adds the fallback offset 12 (the end of the last placed segment), not
the formula value `(0/1)·5 = 0`: its segment lands at `[12,13]`, not `[0,1]`. -/
theorem time_offset_zero_offset_cex :
    (0 : ℚ) < cexB.result.duration.getD 0 ∧
    ((cexB.offset : ℚ) / (cexB.chunkSize : ℚ)) * cexB.result.duration.getD 0 = 0 ∧
    timeOffsetOf cexB (globalLists [cexA]).1 = 12 ∧
    (mergeResults [cexA, cexB]).segments = [exSeg 10 12 "a", exSeg 12 13 "b"] := by
  refine ⟨by decide, by decide, by decide, by decide⟩

unseal Rat.add Rat.mul Rat.inv Rat.sub in
/-- Claim C3 witness: for `cexA` (offset 1, length 1, duration 10) the product
path is taken, and for `cexB` (offset 0) the fallback path is taken. -/
theorem time_offset_product_or_fallback_witness :
    timeOffsetOf cexA [] = ((cexA.offset : ℚ) / (cexA.chunkSize : ℚ)) * cexA.result.duration.getD 0 ∧
    timeOffsetOf cexB [exSeg 10 12 "a"] =
      (match ([exSeg 10 12 "a"] : List Segment).getLast? with
       | some l => l.«end»
       | none => 0) :=
  ⟨(time_offset_product_or_fallback cexA []).1 (by decide) (by decide) (by decide),
   (time_offset_product_or_fallback cexB [exSeg 10 12 "a"]).2 (Or.inl (by decide))⟩

unseal Rat.add Rat.mul Rat.inv Rat.sub in
/-- Claim C4 counterexample: `[ordA, ordB]` and `[ordB, ordA]` are permutations
of the same two chunk results, yet merging them yields different transcripts
("a b" versus "b a"): `ordB` reports duration 0, so its time offset takes the
order-sensitive fallback. -/
theorem merge_not_order_independent_cex :
    ([ordA, ordB] : List ChunkResult).Perm [ordB, ordA] ∧
    (mergeResults [ordA, ordB]).text = "a b" ∧
    (mergeResults [ordB, ordA]).text = "b a" ∧
    mergeResults [ordA, ordB] ≠ mergeResults [ordB, ordA] :=
  ⟨List.Perm.swap ordB ordA [], by decide, by decide, by decide⟩

/-- When every chunk's product is nonzero, the accumulator never feeds back
into a time offset, and the global lists are just the concatenation of the
per-chunk contributions. -/
theorem globalLists_eq_flatten :
    ∀ (cs : List ChunkResult) (acc : List Segment × List Word),
      (∀ c ∈ cs, chunkProduct c ≠ 0) →
      cs.foldl accumulate acc =
        (acc.1 ++ (cs.map segContrib).flatten, acc.2 ++ (cs.map wordContrib).flatten) := by
  intro cs
  induction cs with
  | nil => intro acc _; simp
  | cons c cs ih =>
    intro acc h
    rw [List.foldl_cons, ih _ (fun c' hc' => h c' (List.mem_cons_of_mem _ hc'))]
    have ht : timeOffsetOf c acc.1 = chunkProduct c := by
      unfold timeOffsetOf
      rw [if_pos (h c (List.mem_cons_self _ _))]
    simp [accumulate, ht, segContrib, wordContrib, List.append_assoc]

/-- Two sorted lists that are permutations of each other and whose keys are
pairwise distinct are equal. -/
theorem eq_of_perm_of_sorted_of_key_nodup {γ : Type} (key : γ → ℚ) :
    ∀ (l₁ l₂ : List γ), l₁.Perm l₂ →
      l₁.Pairwise (fun a b => key a ≤ key b) →
      l₂.Pairwise (fun a b => key a ≤ key b) →
      l₁.Pairwise (fun a b => key a ≠ key b) → l₁ = l₂ := by
  intro l₁
  induction l₁ with
  | nil =>
    intro l₂ h _ _ _
    exact h.nil_eq
  | cons x t₁ ih =>
    intro l₂ h hs₁ hs₂ hne
    cases l₂ with
    | nil => exact absurd h.symm (by simp)
    | cons y t₂ =>
      have hxy : x = y := by
        by_contra hxyne
        have hxl₂ : x ∈ y :: t₂ := h.mem_iff.mp (List.mem_cons_self _ _)
        have hxt₂ : x ∈ t₂ := by
          rcases List.mem_cons.mp hxl₂ with h' | h'
          · exact absurd h' hxyne
          · exact h'
        have hyl₁ : y ∈ x :: t₁ := h.symm.mem_iff.mp (List.mem_cons_self _ _)
        have hyt₁ : y ∈ t₁ := by
          rcases List.mem_cons.mp hyl₁ with h' | h'
          · exact absurd h'.symm hxyne
          · exact h'
        have h1 : key x ≤ key y := (List.pairwise_cons.mp hs₁).1 y hyt₁
        have h2 : key y ≤ key x := (List.pairwise_cons.mp hs₂).1 x hxt₂
        have h3 : key x ≠ key y := (List.pairwise_cons.mp hne).1 y hyt₁
        exact h3 (le_antisymm h1 h2)
      subst hxy
      have ht : t₁.Perm t₂ := h.cons_inv
      have := ih t₂ ht (List.pairwise_cons.mp hs₁).2 (List.pairwise_cons.mp hs₂).2
        (List.pairwise_cons.mp hne).2
      rw [this]

/-- Claim C4 (amended): the Merge Engine is *not* order-independent in general
(see the counterexample), but it is for chunk sets that stay off the
duration-fallback path and produce no timestamp ties: if every chunk's
`(offset/chunkSize)·duration` product is nonzero and the shifted segment and
word start times are pairwise distinct, every permutation of the chunk list
merges to an identical `MergedTranscript`. -/
theorem merge_order_independent_of_nonzero_products :
    ∀ (cs₁ cs₂ : List ChunkResult), cs₁.Perm cs₂ →
      (∀ c ∈ cs₁, chunkProduct c ≠ 0) →
      ((globalLists cs₁).1.Pairwise (fun a b => a.start ≠ b.start)) →
      ((globalLists cs₁).2.Pairwise (fun a b => a.start ≠ b.start)) →
      mergeResults cs₁ = mergeResults cs₂ := by
  intro cs₁ cs₂ hperm hnz hne₁ hne₂
  have hnz₂ : ∀ c ∈ cs₂, chunkProduct c ≠ 0 := fun c hc =>
    hnz c (hperm.mem_iff.mpr hc)
  have h1 : globalLists cs₁ =
      ((cs₁.map segContrib).flatten, (cs₁.map wordContrib).flatten) := by
    unfold globalLists
    rw [globalLists_eq_flatten cs₁ ([], []) hnz]
    simp
  have h2 : globalLists cs₂ =
      ((cs₂.map segContrib).flatten, (cs₂.map wordContrib).flatten) := by
    unfold globalLists
    rw [globalLists_eq_flatten cs₂ ([], []) hnz₂]
    simp
  have hps : (globalLists cs₁).1.Perm (globalLists cs₂).1 := by
    rw [h1, h2]
    exact (hperm.map segContrib).flatten
  have hpw : (globalLists cs₁).2.Perm (globalLists cs₂).2 := by
    rw [h1, h2]
    exact (hperm.map wordContrib).flatten
  have hsegs : List.insertionSort segLE (globalLists cs₁).1
      = List.insertionSort segLE (globalLists cs₂).1 := by
    apply eq_of_perm_of_sorted_of_key_nodup Segment.start
    · exact (List.perm_insertionSort segLE _).trans
        (hps.trans (List.perm_insertionSort segLE _).symm)
    · exact List.sorted_insertionSort segLE _
    · exact List.sorted_insertionSort segLE _
    · exact ((List.perm_insertionSort segLE _).pairwise_iff
        (fun h => Ne.symm h)).mpr hne₁
  have hwords : List.insertionSort wordLE (globalLists cs₁).2
      = List.insertionSort wordLE (globalLists cs₂).2 := by
    apply eq_of_perm_of_sorted_of_key_nodup Word.start
    · exact (List.perm_insertionSort wordLE _).trans
        (hpw.trans (List.perm_insertionSort wordLE _).symm)
    · exact List.sorted_insertionSort wordLE _
    · exact List.sorted_insertionSort wordLE _
    · exact ((List.perm_insertionSort wordLE _).pairwise_iff
        (fun h => Ne.symm h)).mpr hne₂
  unfold mergeResults
  rw [hsegs, hwords]

unseal Rat.add Rat.mul Rat.inv Rat.sub in
/-- Claim C4 witness: two chunks with nonzero products (`wChunkA`, `wChunkB`)
and distinct shifted starts merge to the same transcript in either order. -/
theorem merge_order_independent_witness :
    mergeResults [wChunkA, wChunkB] = mergeResults [wChunkB, wChunkA] :=
  merge_order_independent_of_nonzero_products [wChunkA, wChunkB] [wChunkB, wChunkA]
    (List.Perm.swap wChunkB wChunkA []) (by decide) (by decide) (by decide)

/-- Every generated task starts at or after the loop's current offset, starts
inside the file, and ends at `min(offset + chunkSize - 1, totalSize - 1)`. -/
theorem chunkLoop_mem (cs total : ℕ) (offset : ℕ) :
    ∀ t ∈ chunkLoop cs total offset,
      offset ≤ t.1 ∧ t.1 < total ∧ t.2 = min (t.1 + cs - 1) (total - 1) := by
  induction offset using chunkLoop.induct cs total with
  | case1 offset h ih =>
    rw [chunkLoop, dif_pos h]
    intro t ht
    rcases List.mem_cons.mp ht with h' | h'
    · subst h'
      exact ⟨le_refl _, h.2, rfl⟩
    · have := ih t h'
      omega
  | case2 offset h =>
    rw [chunkLoop, dif_neg h]
    simp

/-- A byte is covered by some generated task exactly when it lies between the
loop's current offset and the end of the file. -/
theorem chunkLoop_cover (cs total : ℕ) (hcs : 0 < cs) (offset : ℕ) :
    ∀ b : ℕ, (offset ≤ b ∧ b < total) ↔
      ∃ t ∈ chunkLoop cs total offset, t.1 ≤ b ∧ b ≤ t.2 := by
  induction offset using chunkLoop.induct cs total with
  | case1 offset h ih =>
    intro b
    rw [chunkLoop, dif_pos h]
    constructor
    · rintro ⟨hob, hbt⟩
      by_cases hb : b ≤ min (offset + cs - 1) (total - 1)
      · exact ⟨(offset, min (offset + cs - 1) (total - 1)),
          List.mem_cons_self _ _, hob, hb⟩
      · obtain ⟨t, htm, htb⟩ := (ih b).mp ⟨by omega, hbt⟩
        exact ⟨t, List.mem_cons_of_mem _ htm, htb⟩
    · rintro ⟨t, htm, ht1, ht2⟩
      rcases List.mem_cons.mp htm with he | hm
      · subst he
        simp only at ht1 ht2
        omega
      · have := (ih b).mpr ⟨t, hm, ht1, ht2⟩
        omega
  | case2 offset h =>
    intro b
    rw [chunkLoop, dif_neg h]
    simp only [List.not_mem_nil, false_and, exists_const, exists_false, iff_false]
    omega

/-- Generated tasks are pairwise ordered: each ends strictly before the next
begins (hence no overlaps and strictly increasing offsets). -/
theorem chunkLoop_disjoint (cs total : ℕ) (hcs : 0 < cs) (offset : ℕ) :
    (chunkLoop cs total offset).Pairwise (fun t u => t.2 < u.1) := by
  induction offset using chunkLoop.induct cs total with
  | case1 offset h ih =>
    rw [chunkLoop, dif_pos h]
    exact List.Pairwise.cons
      (fun u hu => by
        have := chunkLoop_mem cs total (offset + cs) u hu
        simp only
        omega) ih
  | case2 offset h =>
    rw [chunkLoop, dif_neg h]
    exact List.Pairwise.nil

/-- Task offsets are strictly increasing in generation order. -/
theorem chunkLoop_offsets_increasing (cs total : ℕ) (hcs : 0 < cs) (offset : ℕ) :
    (chunkLoop cs total offset).Pairwise (fun t u => t.1 < u.1) := by
  refine (chunkLoop_disjoint cs total hcs offset).imp_of_mem ?_
  intro t u ht _hu hr
  have := chunkLoop_mem cs total offset t ht
  omega

/-- Consecutive tasks are contiguous: the next offset is the previous
inclusive end plus one (no gaps, no overlaps). -/
theorem chunkLoop_contiguous (cs total : ℕ) (hcs : 0 < cs) (offset : ℕ) :
    (chunkLoop cs total offset).Chain' (fun t u => u.1 = t.2 + 1) := by
  induction offset using chunkLoop.induct cs total with
  | case1 offset h ih =>
    rw [chunkLoop, dif_pos h]
    rw [List.chain'_cons']
    refine ⟨?_, ih⟩
    intro u hu
    by_cases h2 : offset + cs < total
    · rw [chunkLoop, dif_pos ⟨hcs, h2⟩] at hu
      simp only [List.head?_cons, Option.mem_def, Option.some.injEq] at hu
      subst hu
      simp only
      omega
    · rw [chunkLoop, dif_neg (fun hc => h2 hc.2)] at hu
      simp at hu
  | case2 offset h =>
    rw [chunkLoop, dif_neg h]
    exact List.chain'_nil

/-- The final generated task ends exactly at `totalSize - 1` (the clamp). -/
theorem chunkLoop_last_clamped (cs total : ℕ) (hcs : 0 < cs) (offset : ℕ) :
    offset < total →
      ((chunkLoop cs total offset).getLast?).map Prod.snd = some (total - 1) := by
  induction offset using chunkLoop.induct cs total with
  | case1 offset h ih =>
    intro _
    rw [chunkLoop, dif_pos h]
    by_cases h2 : offset + cs < total
    · obtain ⟨x, xs, he⟩ : ∃ x xs, chunkLoop cs total (offset + cs) = x :: xs := by
        rw [chunkLoop, dif_pos ⟨hcs, h2⟩]
        exact ⟨_, _, rfl⟩
      rw [he, List.getLast?_cons_cons, ← he]
      exact ih h2
    · have hrest : chunkLoop cs total (offset + cs) = [] := by
        rw [chunkLoop, dif_neg (fun hc => h2 hc.2)]
      rw [hrest]
      simp only [List.getLast?_singleton, Option.map_some']
      congr 1
      omega
  | case2 offset h =>
    intro ho
    exact absurd ⟨hcs, ho⟩ h

/-- Flattening one inner batch and continuing from its final offset generates
the same task stream as the unbatched loop. -/
theorem batchTasks_flatten (cs total : ℕ) (hcs : 0 < cs) :
    ∀ (j offset : ℕ),
      (batchTasks cs total j offset).1 ++
          chunkLoop cs total (batchTasks cs total j offset).2
        = chunkLoop cs total offset := by
  intro j
  induction j with
  | zero => intro offset; simp [batchTasks]
  | succ j ih =>
    intro offset
    by_cases ho : offset < total
    · simp only [batchTasks, if_pos ho]
      rw [List.cons_append, ih (offset + cs)]
      conv_rhs => rw [chunkLoop, dif_pos ⟨hcs, ho⟩]
    · simp only [batchTasks, if_neg ho]
      simp

/-- Dispatching in bounded parallel batches generates exactly the tasks of the
flattened loop: batching never changes the generated byte ranges. -/
theorem scheduleLoop_eq_chunkLoop (p cs total : ℕ) (hp : 0 < p) (hcs : 0 < cs) :
    ∀ offset, scheduleLoop p cs total offset = chunkLoop cs total offset := by
  intro offset
  induction offset using scheduleLoop.induct p cs total with
  | case1 offset h ih =>
    rw [scheduleLoop, dif_pos h, ih, batchTasks_flatten cs total hcs p offset]
  | case2 offset h =>
    rw [scheduleLoop, dif_neg h, chunkLoop,
      dif_neg (fun hc => h ⟨hp, hc.1, hc.2⟩)]

/-- Claim C5: for positive chunk size (and parallelism), the generated chunk
tasks cover `[0, totalSize)` with no gaps and no overlaps, their offsets are
strictly increasing in generation order, every task ends at
`min(offset + chunkSize - 1, totalSize - 1)` — i.e. `offset + chunkSize - 1`
except the final task, clamped to `totalSize - 1` — batching by the
parallelism limit does not change the tasks, and for
`totalSize = 21_000_000`, `chunkSize = 8_000_000` the offsets are
`0, 8_000_000, 16_000_000` with last end `20_999_999`. -/
theorem chunk_tasks_partition (cs total p : ℕ) (hcs : 0 < cs) (hp : 0 < p) :
    (∀ b : ℕ, b < total ↔ ∃ t ∈ chunkLoop cs total 0, t.1 ≤ b ∧ b ≤ t.2) ∧
    (chunkLoop cs total 0).Pairwise (fun t u => t.1 < u.1) ∧
    (chunkLoop cs total 0).Pairwise (fun t u => t.2 < u.1) ∧
    (chunkLoop cs total 0).Chain' (fun t u => u.1 = t.2 + 1) ∧
    (∀ t ∈ chunkLoop cs total 0, t.2 = min (t.1 + cs - 1) (total - 1)) ∧
    (total ≠ 0 → ((chunkLoop cs total 0).getLast?).map Prod.snd = some (total - 1)) ∧
    scheduleLoop p cs total 0 = chunkLoop cs total 0 ∧
    chunkLoop 8000000 21000000 0
      = [(0, 7999999), (8000000, 15999999), (16000000, 20999999)] := by
  refine ⟨?_, chunkLoop_offsets_increasing cs total hcs 0,
    chunkLoop_disjoint cs total hcs 0, chunkLoop_contiguous cs total hcs 0,
    fun t ht => (chunkLoop_mem cs total 0 t ht).2.2,
    fun h0 => chunkLoop_last_clamped cs total hcs 0 (by omega),
    scheduleLoop_eq_chunkLoop p cs total hp hcs 0, ?_⟩
  · intro b
    have := chunkLoop_cover cs total hcs 0 b
    simpa using this
  · rw [chunkLoop, dif_pos (by norm_num)]
    rw [chunkLoop, dif_pos (by norm_num)]
    rw [chunkLoop, dif_pos (by norm_num)]
    rw [chunkLoop, dif_neg (by norm_num)]
    norm_num

/-- Claim C5 witness: the scheduler at chunk size 8 MB (8,000,000 as in the
spec example) and total 21,000,000 with parallelism 10. -/
theorem chunk_tasks_partition_witness :
    chunkLoop 8000000 21000000 0
      = [(0, 7999999), (8000000, 15999999), (16000000, 20999999)] :=
  (chunk_tasks_partition 8000000 21000000 10 (by norm_num) (by norm_num)).2.2.2.2.2.2.2

/-- Claim C6: strategy selection is a pure function of the probed total size
and the caller overrides — size 0 picks the unknown-size fallback,
`0 < size ≤ 20MB` single-shot, `20MB < size ≤ 50MB` medium-parallel with an
8MB default chunk (4MB above 40MB) and parallelism 10, `size > 50MB`
safe-parallel with 2MB chunks and parallelism 3; a positive-integer override
replaces the computed default in the medium and safe strategies. -/
theorem select_strategy_spec (co po : Option ℤ) :
    selectStrategy (some 0) co po = .unknownFallback ∧
    (∀ n : ℤ, 0 < n → n ≤ SMALL_FILE_LIMIT →
      selectStrategy (some n) co po = .singleShot) ∧
    (∀ n : ℤ, SMALL_FILE_LIMIT < n → n ≤ MEDIUM_FILE_LIMIT →
      selectStrategy (some n) co po =
        .mediumParallel
          (match co with
           | some v => if 0 < v then v
               else if 40 * 1024 * 1024 < n then 4 * 1024 * 1024 else DEFAULT_CHUNK_SIZE
           | none => if 40 * 1024 * 1024 < n then 4 * 1024 * 1024 else DEFAULT_CHUNK_SIZE)
          (match po with
           | some v => if 0 < v then v else DEFAULT_PARALLEL
           | none => DEFAULT_PARALLEL)) ∧
    (∀ n : ℤ, MEDIUM_FILE_LIMIT < n →
      selectStrategy (some n) co po =
        .safeParallel
          (match co with
           | some v => if 0 < v then v else SAFE_CHUNK_SIZE
           | none => SAFE_CHUNK_SIZE)
          (match po with
           | some v => if 0 < v then v else SAFE_PARALLEL
           | none => SAFE_PARALLEL)) ∧
    selectStrategy (some 10000000) none none = .singleShot ∧
    selectStrategy (some 30000000) none none
      = .mediumParallel DEFAULT_CHUNK_SIZE DEFAULT_PARALLEL ∧
    selectStrategy (some 45000000) none none
      = .mediumParallel (4 * 1024 * 1024) DEFAULT_PARALLEL ∧
    selectStrategy (some 100000000) none none
      = .safeParallel SAFE_CHUNK_SIZE SAFE_PARALLEL := by
  refine ⟨rfl, ?_, ?_, ?_, by decide, by decide, by decide, by decide⟩
  · intro n h1 h2
    unfold selectStrategy
    rw [if_pos (by simp [jgt, jle]; omega)]
  · intro n h1 h2
    unfold SMALL_FILE_LIMIT at h1
    unfold MEDIUM_FILE_LIMIT at h2
    unfold selectStrategy
    rw [if_neg (by simp [jgt, jle, SMALL_FILE_LIMIT]; omega),
      if_neg (by simp; omega),
      if_pos (by simp [jgt, jle, MEDIUM_FILE_LIMIT]; omega)]
    unfold applyOverride jgt
    simp only [decide_eq_true_eq]
  · intro n h1
    unfold MEDIUM_FILE_LIMIT at h1
    unfold selectStrategy
    rw [if_neg (by simp [jgt, jle, SMALL_FILE_LIMIT]; omega),
      if_neg (by simp; omega),
      if_neg (by simp [jgt, jle, MEDIUM_FILE_LIMIT]; omega)]
    unfold applyOverride
    simp only [decide_eq_true_eq]

/-- Claim C6 witness: the selector applied at `totalSize = 30,000,000` with no
overrides, via the medium-range branch of `select_strategy_spec`. -/
theorem select_strategy_spec_witness :
    selectStrategy (some 30000000) none none
      = .mediumParallel
          (if (40 * 1024 * 1024 : ℤ) < 30000000 then 4 * 1024 * 1024 else DEFAULT_CHUNK_SIZE)
          DEFAULT_PARALLEL :=
  (select_strategy_spec none none).2.2.1 30000000 (by decide) (by decide)

/-- Claim C7: for a 45MB file with no overrides the worker *uses* a 4MB chunk
size but the response metadata *reports* the 8MB default, and a negative
(ignored) chunk override is echoed verbatim in the metadata instead of the
default that was actually used — the metadata does not report the effective
values.  (Evaluates the embedded branch logic and metadata at the failing
inputs; supports the `code_bug` verdict.) -/
theorem meta_chunk_size_mismatch :
    selectStrategy (some 47185920) none none
      = .mediumParallel (4 * 1024 * 1024) DEFAULT_PARALLEL ∧
    metaChunkSize none (some 47185920) = DEFAULT_CHUNK_SIZE ∧
    (4 * 1024 * 1024 : ℤ) ≠ DEFAULT_CHUNK_SIZE ∧
    selectStrategy (some 30000000) (some (-5)) none
      = .mediumParallel DEFAULT_CHUNK_SIZE DEFAULT_PARALLEL ∧
    metaChunkSize (some (-5)) (some 30000000) = -5 ∧
    metaParallelism (some (-2)) (some 30000000) = -2 := by
  refine ⟨by decide, by decide, by decide, by decide, by decide, by decide⟩

/-- Claim C8 counterexample: in the single-shot / unknown-size whole-file path
only the content type is checked, so an empty payload — and even a payload
whose leading bytes are markup — is handed to the transcription engine as long
as the declared content type matches `audio|video`. -/
theorem singleshot_unvalidated_payload_cex :
    singleShotFetch (fun b => b.length) ⟨"audio/mpeg", []⟩ = Except.ok ⟨0, 0, 0⟩ ∧
    singleShotFetch (fun b => b.length) ⟨"audio/mpeg", "<html>".toList⟩
      = Except.ok ⟨0, 6, 6⟩ ∧
    markupTest ("<html>".toList.take 64) = true :=
  ⟨rfl, rfl, by decide⟩

/-- Claim C8 (amended): every payload the *chunked* path hands to the
transcription engine has passed the content-sanity check (non-empty, leading
bytes free of the markup / error-object signatures), and the single-shot /
fallback whole-file path checks that the declared content type matches
`audio|video` — but the whole-file path does not run the payload-bytes sanity
check (see the counterexample). -/
theorem chunk_payload_validated :
    (∀ (α : Type) (ai : List Char → α) (offset : ℕ)
        (resp1 resp2 : OriginResponse) (out : ChunkOutput α),
      (processChunk ai offset resp1 resp2).outcome = Except.ok out →
        (effectiveResponse resp1 resp2).body.length ≠ 0 ∧
        markupTest ((effectiveResponse resp1 resp2).body.take 64) = false ∧
        out.result = ai (effectiveResponse resp1 resp2).body) ∧
    (∀ (α : Type) (ai : List Char → α) (resp : FullResponse) (out : ChunkOutput α),
      singleShotFetch ai resp = Except.ok out →
        audioVideoTest resp.contentType = true) := by
  constructor
  · intro α ai offset r1 r2 out h
    simp only [processChunk] at h
    split at h
    · simp at h
    · split at h
      · simp at h
      · rename_i hval
        push_neg at hval
        have hout := Except.ok.inj h
        refine ⟨hval.1, ?_, ?_⟩
        · exact Bool.not_eq_true _ ▸ hval.2
        · rw [← hout]
  · intro α ai resp out h
    simp only [singleShotFetch] at h
    split at h
    · simp at h
    · rename_i hct
      simpa using hct

/-- Claim C8 witness: a 206 response with the one-byte payload `"a"` passes the
sanity check and that payload is what reaches the engine. -/
theorem chunk_payload_validated_witness :
    (effectiveResponse ⟨206, ['a']⟩ ⟨0, []⟩).body.length ≠ 0 ∧
    markupTest ((effectiveResponse ⟨206, ['a']⟩ ⟨0, []⟩).body.take 64) = false ∧
    (⟨0, 1, 1⟩ : ChunkOutput ℕ).result
      = (fun b => b.length) (effectiveResponse ⟨206, ['a']⟩ ⟨0, []⟩).body :=
  chunk_payload_validated.1 ℕ (fun b => b.length) 0 ⟨206, ['a']⟩ ⟨0, []⟩ ⟨0, 1, 1⟩ rfl

/-- Claim C9: on a 401/403 first response the fetcher re-resolves exactly once
and retries the same range exactly once; a retry that again returns a
non-success status is surfaced as the fatal `Origin fetch failed` error with no
further retry; and a retry that succeeds produces an outcome identical to a
fetch that never hit the expiry. -/
theorem auth_retry_once :
    ∀ (α : Type) (ai : List Char → α) (offset : ℕ) (resp1 resp2 : OriginResponse),
      (resp1.status = 403 ∨ resp1.status = 401) →
      (processChunk ai offset resp1 resp2).resolves = 1 ∧
      (processChunk ai offset resp1 resp2).fetches = 2 ∧
      (resp2.status ≠ 206 ∧ resp2.status ≠ 200 →
        (processChunk ai offset resp1 resp2).outcome
          = Except.error ("Origin fetch failed: " ++ toString resp2.status)) ∧
      (∀ resp3 : OriginResponse, ¬(resp2.status = 403 ∨ resp2.status = 401) →
        (processChunk ai offset resp1 resp2).outcome
          = (processChunk ai offset resp2 resp3).outcome) := by
  intro α ai offset r1 r2 h
  have hb : authFailure r1.status = true := by
    rcases h with h | h <;> simp [authFailure, h]
  have heff : effectiveResponse r1 r2 = r2 := by
    unfold effectiveResponse
    rw [if_pos hb]
  refine ⟨?_, ?_, ?_, ?_⟩
  · simp [processChunk, hb]
  · simp [processChunk, hb]
  · intro hfail
    simp only [processChunk, heff, hb]
    rw [if_pos hfail]
  · intro r3 hok
    have hb2 : authFailure r2.status = false := by
      simp only [authFailure, Bool.or_eq_false_iff, decide_eq_false_iff_not]
      exact ⟨fun e => hok (Or.inl e), fun e => hok (Or.inr e)⟩
    have heff2 : effectiveResponse r2 r3 = r2 := by
      unfold effectiveResponse
      rw [hb2]
      simp
    simp only [processChunk, heff, heff2]

/-- Claim C9 witness: a 403 first answer followed by a 206 retry with payload
`"a"`: one re-resolution, two fetches, and the same outcome as a clean fetch. -/
theorem auth_retry_once_witness :
    (processChunk (fun b => b.length) 5 ⟨403, []⟩ ⟨206, ['a']⟩).resolves = 1 ∧
    (processChunk (fun b => b.length) 5 ⟨403, []⟩ ⟨206, ['a']⟩).fetches = 2 ∧
    (processChunk (fun b => b.length) 5 ⟨403, []⟩ ⟨206, ['a']⟩).outcome
      = (processChunk (fun b => b.length) 5 ⟨206, ['a']⟩ ⟨0, []⟩).outcome :=
  have h := auth_retry_once ℕ (fun b => b.length) 5 ⟨403, []⟩ ⟨206, ['a']⟩ (Or.inl rfl)
  ⟨h.1, h.2.1, h.2.2.2 ⟨0, []⟩ (by decide)⟩

/-- Claim C10: a failed probe, a missing `Content-Range`, or a malformed
header is treated as size 0 and falls back to the whole-file strategy — but a
`Content-Range` of the standard unknown-size form `bytes 0-0/*` parses to
`NaN`, which is *not* treated as 0: every branch test on it is false, so the
worker enters the safe-parallel branch (whose `while` loop, comparing against
`NaN`, runs zero iterations) instead of the unknown-size fallback.  (Evaluates
the embedded probe handling at the failing input; supports the `code_bug`
verdict.) -/
theorem probe_star_not_fallback :
    probeFileSize ⟨true, some "bytes 0-0/*"⟩ = none ∧
    selectStrategy (probeFileSize ⟨true, some "bytes 0-0/*"⟩) none none
      = .safeParallel SAFE_CHUNK_SIZE SAFE_PARALLEL ∧
    selectStrategy (probeFileSize ⟨true, some "bytes 0-0/*"⟩) none none
      ≠ .unknownFallback ∧
    probeFileSize ⟨false, some "bytes 0-0/12345"⟩ = some 0 ∧
    probeFileSize ⟨true, none⟩ = some 0 ∧
    probeFileSize ⟨true, some "nonsense"⟩ = some 0 ∧
    probeFileSize ⟨true, some "bytes 0-0/12345"⟩ = some 12345 ∧
    selectStrategy (some 0) none none = .unknownFallback := by
  refine ⟨by decide, by decide, by decide, by decide, by decide, by decide,
    by decide, by decide⟩

end TranscriptionWorker
